import Mathlib

/-!
Shallow embedding of the S0-rk-av-reprokit recorder core
(`src/main.c`, `src/sink.c`, `src/encoder_mpp.c`, `src/app_config.c`)
and proofs about its specified properties.

External devices (the V4L2 capture source, the ALSA audio source, the MPP
library calls and libc `fwrite`/`fopen`) are modelled as oracle inputs: each
theorem quantifies over their possible results, constrained only by their
documented contracts.  The statistics aggregator (`av_stats.c` is not part of
the provided sources) is modelled from the spec (§4.5): monotonic counters,
`recordDropped(n)` adds `n`.
-/

set_option autoImplicit false
set_option maxRecDepth 8192

namespace AvRepro

/-- Wrap modulus of `uint32_t` arithmetic (`cap.last_sequence`, `frames_target`). -/
def U32 : Nat := 2 ^ 32

/-- First value outside the non-negative `int` range: `2^31`. -/
def I32 : Nat := 2 ^ 31

/-- Wrap modulus of `size_t` arithmetic in `audio_thread`. -/
def U64 : Nat := 2 ^ 64

/-! ## Sink (`src/sink.c`) -/

/-- `EncSinkType` variant tag from `sink.h`, switched on inside `sink.c`. -/
inductive EncSinkType
  | ENC_SINK_NONE
  | ENC_SINK_FILE
  | ENC_SINK_PIPE_FFMPEG
  deriving DecidableEq

/-- `EncSink` from `sink.h`: variant tag, target string, and whether the
`FILE*` handles are currently non-null.  (The C struct stores the target in a
fixed `char` array via `strncpy`; the truncation is irrelevant to the claims
and the target is kept as a whole string here.) -/
structure EncSink where
  type : EncSinkType
  target : String
  file_fp : Bool
  pipe_fp : Bool

/-- `enc_sink_init` (sink.c:8-21): zero the struct, record tag and target. -/
def enc_sink_init (type : EncSinkType) (target : Option String) : EncSink :=
  { type := type
    target := match target with
      | some t => t
      | none => ""
    file_fp := false
    pipe_fp := false }

/-- `enc_sink_open` (sink.c:23-49).  `fopenOk` is the oracle outcome of the
libc `fopen` call for the file variant.  Returns the C result code paired with
the updated sink state.  Note the `ENC_SINK_NONE`/default arm merely logs a
warning and falls through to `return 0`. -/
def enc_sink_open (sink : EncSink) (fopenOk : Bool) : Int × EncSink :=
  match sink.type with
  | .ENC_SINK_FILE =>
    if fopenOk then (0, { sink with file_fp := true }) else (-1, sink)
  | .ENC_SINK_PIPE_FFMPEG => (-1, sink)
  | .ENC_SINK_NONE => (0, sink)

/-- `enc_sink_write` (sink.c:51-75).  `dataNonNull` models the `!data` guard;
`ioWritten` is the oracle result of the libc `fwrite` call (bytes actually
persisted, at most `len`). -/
def enc_sink_write (sink : EncSink) (dataNonNull : Bool) (len : Nat)
    (ioWritten : Nat) : Int :=
  if ¬dataNonNull ∨ len = 0 then -1
  else
    match sink.type with
    | .ENC_SINK_FILE =>
      if ¬sink.file_fp then -1
      else if ioWritten ≠ len then -1
      else 0
    | .ENC_SINK_PIPE_FFMPEG => 0
    | .ENC_SINK_NONE => 0

/-! ## Hardware encoder (`src/encoder_mpp.c`, the `RK_MPP_AVAILABLE` branch) -/

/-- `(x + 15) & ~15` from `encoder_mpp_init` (encoder_mpp.c:65-66); for
non-negative values clearing the low four bits is subtracting the remainder
mod 16. -/
def alignUp16 (n : Nat) : Nat := (n + 15) - (n + 15) % 16

/-- `enc->frame_size` (encoder_mpp.c:67): stride-aligned `w × h × 3 / 2`. -/
def encFrameSize (width height : Nat) : Nat :=
  alignUp16 width * alignUp16 height * 3 / 2

/-- The effect on the encoder's scratch buffer of the `memcpy`/`memset` pair
in `encoder_mpp_encode` (encoder_mpp.c:162-168): copy
`min(frame_size, capacity)` bytes, then zero-fill any remainder. -/
def scratchAfterEncode (capacity : Nat) (old data : List Nat) : List Nat :=
  let copySize := if data.length > capacity then capacity else data.length
  let afterCopy := data.take copySize ++ old.drop copySize
  if copySize < capacity then
    afterCopy.take copySize ++ List.replicate (capacity - copySize) 0
  else
    afterCopy

/-- Encoder session state relevant to `encoder_mpp_encode`: whether
`ctx`/`mpi`/`frm_buf` are all non-null, the scratch capacity negotiated at
init, and the current scratch contents. -/
structure EncoderMPP where
  valid : Bool
  frame_size : Nat
  scratch : List Nat

/-- An MPP output packet as observed by `encoder_mpp_encode`: whether
`mpp_packet_get_pos` returned null, and `mpp_packet_get_length`. -/
structure MppPacket where
  posNull : Bool
  len : Nat

/-- Oracle results of the opaque MPP library calls and of the sink's
`fwrite` inside one `encoder_mpp_encode` call. -/
structure MppOracle where
  frameInitRet : Int
  putFrameRet : Int
  getPacketRet : Int
  pkt : Option MppPacket
  sinkIoWritten : Nat

/-- Result of one `encoder_mpp_encode` call: the C return code, the value
stored through `out_bytes`, and the scratch contents afterwards. -/
structure EncodeResult where
  ret : Int
  out_bytes : Nat
  scratch : List Nat

/-- `encoder_mpp_encode` (encoder_mpp.c:145-220).  `frame_data` is `none` for
a null pointer; `sinkPresent` models the `sink` pointer null check. -/
def encoder_mpp_encode (enc : EncoderMPP) (frame_data : Option (List Nat))
    (sinkPresent : Bool) (sink : EncSink) (o : MppOracle) : EncodeResult :=
  if ¬enc.valid then ⟨-1, 0, enc.scratch⟩
  else
    match frame_data with
    | none => ⟨-1, 0, enc.scratch⟩
    | some data =>
      if data.length = 0 then ⟨-1, 0, enc.scratch⟩
      else
        let filled := scratchAfterEncode enc.frame_size enc.scratch data
        if o.frameInitRet ≠ 0 then ⟨-1, 0, filled⟩
        else if o.putFrameRet ≠ 0 then ⟨-1, 0, filled⟩
        else if o.getPacketRet ≠ 0 then ⟨0, 0, filled⟩
        else
          match o.pkt with
          | none => ⟨0, 0, filled⟩
          | some p =>
            if ¬p.posNull ∧ 0 < p.len ∧ sinkPresent then
              let sinkRet := enc_sink_write sink true p.len o.sinkIoWritten
              if sinkRet = 0 then ⟨0, p.len, filled⟩ else ⟨-1, 0, filled⟩
            else ⟨0, 0, filled⟩

/-! ## Video worker loop (`video_thread`, main.c:162-254)

One loop iteration observes the stop flag, then attempts a non-blocking
dequeue.  Modelled from the spec (§4.1), since `v4l2_capture.c` is not among
the provided sources: `dequeue` either fails transiently (`WouldBlock`) or
yields one buffer (index, `uint32_t` sequence number); every dequeued buffer
must later be handed back via `enqueue`.  The encode call's outcome inside
the iteration is the oracle pair `encRet`/`encOutBytes`. -/

/-- The observable input of one iteration of `video_thread`'s running loop. -/
inductive VideoEvent
  /-- `v4l2_capture_dqbuf` returned non-zero (no frame ready; 1ms back-off). -/
  | wouldBlock (stopSeen : Bool)
  /-- A successful dequeue: buffer `index`, `cap.last_sequence = seq`, and the
  result of the `encoder_mpp_encode` call for this buffer. -/
  | frame (stopSeen : Bool) (index : Nat) (seq : Nat) (encRet : Int)
      (encOutBytes : Nat)

/-- The value of `g_stop` sampled at the head of the iteration. -/
def VideoEvent.stopFlag : VideoEvent → Bool
  | .wouldBlock s => s
  | .frame s _ _ _ _ => s

/-- Video-worker loop state: the locals of `video_thread` plus the
aggregator counters this loop mutates.  The aggregator (`av_stats.c` is not
under the provided sources) is modelled from the spec (§4.5) as monotonic
counters; the two `av_stats_add_drop` call sites (sequence gap, main.c:230;
encode failure, main.c:238) are tracked separately so that the drops
attributable to each site can be stated. -/
structure VideoState where
  last_seq : Nat
  has_seq : Bool
  frames : Nat
  gapDrops : Nat
  encFailDrops : Nat
  videoFrames : Nat
  encBytes : Nat
  dequeued : List Nat
  enqueued : List Nat

/-- Loop state on entry to the running loop (main.c:203-207). -/
def initVideoState : VideoState :=
  { last_seq := 0, has_seq := false, frames := 0, gapDrops := 0
    encFailDrops := 0, videoFrames := 0, encBytes := 0
    dequeued := [], enqueued := [] }

/-- The body of one running-loop iteration (main.c:210-245), given that the
loop condition held.  A failed dequeue only sleeps.  A successful dequeue
runs the sequence-gap accounting (in `uint32_t` arithmetic), the encode call
with its success/failure accounting, then requeues the buffer and increments
`frames`. -/
def videoStep (s : VideoState) : VideoEvent → VideoState
  | .wouldBlock _ => s
  | .frame _ index seq encRet encOutBytes =>
    let cur := seq % U32
    let s1 := { s with dequeued := s.dequeued ++ [index] }
    let s2 :=
      if ¬s1.has_seq then { s1 with last_seq := cur, has_seq := true }
      else
        let gap :=
          if (s1.last_seq + 1) % U32 < cur then
            (cur + 2 * U32 - s1.last_seq - 1) % U32
          else 0
        { s1 with gapDrops := s1.gapDrops + gap, last_seq := cur }
    let s3 :=
      if encRet ≠ 0 then { s2 with encFailDrops := s2.encFailDrops + 1 }
      else { s2 with videoFrames := s2.videoFrames + 1
                     encBytes := s2.encBytes + encOutBytes }
    { s3 with enqueued := s3.enqueued ++ [index], frames := s3.frames + 1 }

/-- `frames_target` (main.c:206): `(int)(duration_sec * (unsigned)fps)` when
both are positive, else 0.  The unsigned product wraps mod `2^32`; the cast
to `int` reinterprets values at or above `2^31` as negative (two's
complement). -/
def frames_target (duration_sec fps : Nat) : Int :=
  if 0 < duration_sec ∧ 0 < fps then
    let p := duration_sec * fps % U32
    if p < I32 then (p : Int) else (p : Int) - (U32 : Int)
  else 0

/-- The running loop (main.c:209-246): iterate while `!g_stop` and
(`frames_target == 0` or `frames < frames_target`). -/
def videoRun (tgt : Int) (s : VideoState) : List VideoEvent → VideoState
  | [] => s
  | e :: es =>
    if e.stopFlag then s
    else if tgt = 0 ∨ (s.frames : Int) < tgt then
      videoRun tgt (videoStep s e) es
    else s

/-- The `uint32_t` sequence numbers carried by the successful dequeues of an
event list, in order. -/
def frameSeqs : List VideoEvent → List Nat
  | [] => []
  | .wouldBlock _ :: es => frameSeqs es
  | .frame _ _ seq _ _ :: es => seq % U32 :: frameSeqs es

/-- The spec's gap formula continued from a last-seen value: sum of
`cur - last - 1` over consecutive observations with `cur > last + 1`. -/
def gapFrom (last : Nat) : List Nat → Nat
  | [] => 0
  | cur :: rest =>
    (if last + 1 < cur then cur - last - 1 else 0) + gapFrom cur rest

/-- The spec's gap formula over a whole observation list: the first
observation only seeds the last-seen value. -/
def gapSumList : List Nat → Nat
  | [] => 0
  | first :: rest => gapFrom first rest

/-! ## Audio worker loop (`audio_thread`, main.c:78-146) -/

/-- The observable input of one iteration of `audio_thread`'s loop: the stop
flag sampled at the loop head, the `audio_capture_read` result `n` (at most
the chunk size; `≤ 0` means no data yet — modelled from the spec §4.2, since
`audio_capture.c` is not among the provided sources), and the `fwrite`
result `wn` (bytes persisted, at most `n`) for the case `n > 0`. -/
structure AudioEvent where
  stopSeen : Bool
  n : Int
  wn : Nat

/-- Audio-worker loop state: the `written` byte counter compared against the
limit, the bytes actually persisted to the PCM file, and the aggregator
counters this loop mutates (modelled from the spec §4.5). -/
structure AudioState where
  written : Nat
  fileBytes : Nat
  audioChunks : Nat
  drops : Nat

/-- Loop state on entry (main.c:119). -/
def initAudioState : AudioState :=
  { written := 0, fileBytes := 0, audioChunks := 0, drops := 0 }

/-- `total_bytes` (main.c:105-106): `rate * bytes_per_frame * duration` in
`size_t` arithmetic when the duration is positive, else `(size_t)-1`
(unlimited). -/
def total_bytes (duration_sec sample_rate bytes_per_frame : Nat) : Nat :=
  if 0 < duration_sec then
    sample_rate * bytes_per_frame % U64 * duration_sec % U64
  else U64 - 1

/-- `chunk` (main.c:109): `frames_per_period * bytes_per_frame` in `size_t`
arithmetic. -/
def chunk_bytes (frames_per_period bytes_per_frame : Nat) : Nat :=
  frames_per_period * bytes_per_frame % U64

/-- The audio loop (main.c:120-138): iterate while `!g_stop` and
`written < total`.  A non-positive read backs off and retries; a short
`fwrite` records one drop and breaks out of the loop without advancing
`written`; a full write advances `written` and the chunk counter. -/
def audioRun (total : Nat) (s : AudioState) : List AudioEvent → AudioState
  | [] => s
  | e :: es =>
    if e.stopSeen then s
    else if s.written < total then
      if e.n ≤ 0 then audioRun total s es
      else
        let nN := e.n.toNat
        let s1 := { s with fileBytes := s.fileBytes + e.wn }
        if e.wn ≠ nN then { s1 with drops := s1.drops + 1 }
        else
          audioRun total
            { s1 with written := s.written + e.wn
                      audioChunks := s.audioChunks + 1 } es
    else s

/-! ## Stop signal and orchestrator (`main.c`) -/

/-- Every operation in the program that touches `g_stop` (main.c:17).
Writers: the `SIGINT`/`SIGTERM` handler (main.c:29), the duration timer
firing (main.c:47), the orchestrator after joining the audio worker
(main.c:322), and the orchestrator's thread-creation failure paths
(main.c:295,305,312).  The worker, reporter and timer loop heads only read
the flag. -/
inductive StopAction
  | sigintHandler
  | timerFire
  | mainAfterAudioJoin
  | mainCreateFail
  | videoPoll
  | audioPoll
  | statsPoll
  deriving DecidableEq

/-- Whether the action is one of the four `g_stop = 1` assignment sites. -/
def StopAction.writes : StopAction → Bool
  | .sigintHandler => true
  | .timerFire => true
  | .mainAfterAudioJoin => true
  | .mainCreateFail => true
  | .videoPoll => false
  | .audioPoll => false
  | .statsPoll => false

/-- The effect of one action on `g_stop`: every write site stores 1; reads
leave it unchanged. -/
def stopAfter (g : Bool) (a : StopAction) : Bool :=
  if a.writes then true else g

/-- The value of `g_stop` after a sequence of actions, starting from its
static initializer 0 (main.c:17). -/
def stopTrace (acts : List StopAction) : Bool :=
  acts.foldl stopAfter false

/-- The orchestrator's actions touching the workers' lifecycle after all
threads were created, in program order (main.c:320-327): join audio, force
the stop flag, join video, join the reporter, and join the timer when a
duration was configured. -/
inductive MainAction
  | joinAudio
  | setStop
  | joinVideo
  | joinStats
  | joinTimer
  deriving DecidableEq, BEq

/-- The shutdown tail of `main` (main.c:320-327). -/
def mainShutdown (durationPos : Bool) : List MainAction :=
  [.joinAudio, .setStop, .joinVideo, .joinStats]
    ++ (if durationPos then [.joinTimer] else [])

/-! ## Helper lemmas -/

/-- A `g_stop` assignment site stores 1 whatever the previous value was. -/
theorem stopAfter_true (a : StopAction) : stopAfter true a = true := by
  simp [stopAfter]

/-- Once `g_stop` is 1, any further sequence of actions leaves it 1. -/
theorem foldl_stopAfter_true (l : List StopAction) :
    l.foldl stopAfter true = true := by
  induction l with
  | nil => rfl
  | cons a l ih => rw [List.foldl_cons, stopAfter_true, ih]

/-- The audio loop persists fewer than `total + chunk` bytes, provided every
read is bounded by the chunk size and every `fwrite` result is bounded by the
corresponding read. -/
theorem audioRun_fileBytes_lt (total chunk : Nat) (events : List AudioEvent)
    (s : AudioState)
    (hev : ∀ e ∈ events, e.n ≤ (chunk : Int) ∧ e.wn ≤ e.n.toNat)
    (hinv : s.fileBytes = s.written)
    (hlt : s.written < total + chunk) :
    (audioRun total s events).fileBytes < total + chunk := by
  induction events generalizing s with
  | nil => simpa [audioRun, hinv] using hlt
  | cons e es ih =>
    have he := hev e (List.mem_cons_self e es)
    have hes : ∀ x ∈ es, x.n ≤ (chunk : Int) ∧ x.wn ≤ x.n.toNat :=
      fun x hx => hev x (List.mem_cons_of_mem e hx)
    rw [audioRun]
    by_cases hstop : e.stopSeen = true
    · simpa [hstop, hinv] using hlt
    · rw [if_neg hstop]
      by_cases hrun : s.written < total
      · rw [if_pos hrun]
        by_cases hn : e.n ≤ 0
        · rw [if_pos hn]
          exact ih s hes hinv hlt
        · rw [if_neg hn]
          have hwchunk : e.wn ≤ chunk := by
            have h1 : e.n.toNat ≤ chunk := Int.toNat_le.mpr he.1
            omega
          by_cases hshort : e.wn ≠ e.n.toNat
          · rw [if_pos hshort]
            simp only
            omega
          · rw [if_neg hshort]
            exact ih _ hes (by simp [hinv]) (by simp only; omega)
      · simpa [hrun, hinv] using hlt

/-- Closed form of the scratch-buffer update: the `memcpy`/`memset` pair
rewrites the whole buffer from the caller's payload and zeros, so nothing of
the previous contents survives. -/
theorem scratchAfterEncode_eq (capacity : Nat) (old data : List Nat)
    (hold : old.length = capacity) :
    scratchAfterEncode capacity old data
      = data.take (min data.length capacity)
        ++ List.replicate (capacity - data.length) 0 := by
  rw [scratchAfterEncode]
  by_cases h : data.length > capacity
  · simp only [h, if_true]
    have hdrop : old.drop capacity = [] :=
      List.drop_eq_nil_of_le (le_of_eq hold)
    have hmin : min data.length capacity = capacity :=
      Nat.min_eq_right (Nat.le_of_lt h)
    have hsub : capacity - data.length = 0 :=
      Nat.sub_eq_zero_of_le (Nat.le_of_lt h)
    simp [hdrop, hmin, hsub]
  · simp only [h, if_false]
    have hle : data.length ≤ capacity := Nat.le_of_not_lt h
    have hmin : min data.length capacity = data.length := Nat.min_eq_left hle
    by_cases hlt : data.length < capacity
    · simp only [hlt, if_true, List.take_length, hmin]
      congr 1
      rw [List.take_append_of_le_length (le_refl _)]
      exact (List.take_length data).symm ▸ List.take_length data
    · have hdrop : old.drop data.length = [] :=
        List.drop_eq_nil_of_le (by omega)
      rw [if_neg hlt]
      simp [List.take_length, hdrop, hmin,
        show capacity - data.length = 0 by omega]

/-- On the non-error path, the scratch buffer after `encoder_mpp_encode` is
exactly the `memcpy`/`memset` image of the caller's payload, whatever the
MPP oracle results are. -/
theorem encoder_mpp_encode_scratch (enc : EncoderMPP) (data : List Nat)
    (sinkPresent : Bool) (sink : EncSink) (o : MppOracle)
    (hv : enc.valid = true) (hne : data.length ≠ 0) :
    (encoder_mpp_encode enc (some data) sinkPresent sink o).scratch
      = scratchAfterEncode enc.frame_size enc.scratch data := by
  rw [encoder_mpp_encode]
  simp only [hv, not_true_eq_false, if_false, hne, ite_false]
  split
  · rfl
  · split
    · rfl
    · split
      · rfl
      · split
        · rfl
        · split
          · split
            · rfl
            · rfl
          · rfl

/-- A failed (WouldBlock) dequeue leaves the whole loop state unchanged. -/
theorem videoStep_wouldBlock (s : VideoState) (stop : Bool) :
    videoStep s (.wouldBlock stop) = s := rfl

/-- Effect of a successful dequeue on the sequence-gap bookkeeping when a
previous sequence number was already seen. -/
theorem videoStep_frame_of_seen (s : VideoState) (stop : Bool) (i q : Nat)
    (r : Int) (ob : Nat) (h : s.has_seq = true) :
    (videoStep s (.frame stop i q r ob)).gapDrops
        = s.gapDrops
          + (if (s.last_seq + 1) % U32 < q % U32
              then (q % U32 + 2 * U32 - s.last_seq - 1) % U32 else 0)
      ∧ (videoStep s (.frame stop i q r ob)).has_seq = true
      ∧ (videoStep s (.frame stop i q r ob)).last_seq = q % U32 := by
  by_cases hr : r = 0 <;> simp [videoStep, h, hr]

/-- The first successful dequeue only seeds the last-seen sequence number
and contributes no drops. -/
theorem videoStep_frame_seed (s : VideoState) (stop : Bool) (i q : Nat)
    (r : Int) (ob : Nat) (h : s.has_seq = false) :
    (videoStep s (.frame stop i q r ob)).gapDrops = s.gapDrops
      ∧ (videoStep s (.frame stop i q r ob)).has_seq = true
      ∧ (videoStep s (.frame stop i q r ob)).last_seq = q % U32 := by
  by_cases hr : r = 0 <;> simp [videoStep, h, hr]

/-- One step adds at most one to the per-run frame counter. -/
theorem videoStep_frames_le (s : VideoState) (e : VideoEvent) :
    (videoStep s e).frames ≤ s.frames + 1 := by
  cases e with
  | wouldBlock stop => exact Nat.le_succ _
  | frame stop i q r ob =>
    by_cases hs : s.has_seq = true <;> by_cases hr : r = 0 <;>
      simp [videoStep, hs, hr]

/-- The `uint32_t` gap expression agrees with the spec's `cur - last - 1`
formula whenever the observed sequence numbers are increasing 32-bit values. -/
theorem gapValue_eq (l c : Nat) (hlc : l < c) (hc : c < U32) :
    (if (l + 1) % U32 < c then (c + 2 * U32 - l - 1) % U32 else 0)
      = if l + 1 < c then c - l - 1 else 0 := by
  have hl1 : (l + 1) % U32 = l + 1 := Nat.mod_eq_of_lt (by omega)
  rw [hl1]
  by_cases h : l + 1 < c
  · rw [if_pos h, if_pos h]
    have hshift : c + 2 * U32 - l - 1 = (c - l - 1) + U32 * 2 := by omega
    rw [hshift, Nat.add_mul_mod_self_left, Nat.mod_eq_of_lt (by omega)]
  · rw [if_neg h, if_neg h]

/-- Gap accounting along the unlimited-target run, continued from an already
seeded last-seen value. -/
theorem videoRun0_gapDrops_of_seen (events : List VideoEvent)
    (s : VideoState)
    (hstop : ∀ e ∈ events, e.stopFlag = false)
    (hseen : s.has_seq = true)
    (hchain : List.Chain (· < ·) s.last_seq (frameSeqs events)) :
    (videoRun 0 s events).gapDrops
      = s.gapDrops + gapFrom s.last_seq (frameSeqs events) := by
  induction events generalizing s with
  | nil => simp [videoRun, gapFrom]
  | cons e es ih =>
    have hstope : e.stopFlag = false := hstop e (List.mem_cons_self e es)
    have hstopes : ∀ x ∈ es, x.stopFlag = false :=
      fun x hx => hstop x (List.mem_cons_of_mem e hx)
    rw [videoRun, hstope]
    simp only [Bool.false_eq_true, if_false, eq_self_iff_true, true_or,
      if_true]
    cases e with
    | wouldBlock stop =>
      rw [videoStep_wouldBlock]
      exact ih s hstopes hseen hchain
    | frame stop i q r ob =>
      obtain ⟨hgap, hseen2, hlast2⟩ :=
        videoStep_frame_of_seen s stop i q r ob hseen
      rw [frameSeqs] at hchain ⊢
      obtain ⟨hlt, hchain2⟩ := List.chain_cons.mp hchain
      have hcur : q % U32 < U32 := Nat.mod_lt _ (by decide)
      rw [ih _ hstopes hseen2 (by rw [hlast2]; exact hchain2), hgap, hlast2,
        gapValue_eq s.last_seq (q % U32) hlt hcur, gapFrom]
      omega

/-- Gap accounting for a whole run from the un-seeded start state. -/
theorem videoRun0_gapDrops (events : List VideoEvent) (s : VideoState)
    (hstop : ∀ e ∈ events, e.stopFlag = false)
    (hseed : s.has_seq = false)
    (hchain : (frameSeqs events).Chain' (· < ·)) :
    (videoRun 0 s events).gapDrops
      = s.gapDrops + gapSumList (frameSeqs events) := by
  induction events generalizing s with
  | nil => simp [videoRun, gapSumList, frameSeqs]
  | cons e es ih =>
    have hstope : e.stopFlag = false := hstop e (List.mem_cons_self e es)
    have hstopes : ∀ x ∈ es, x.stopFlag = false :=
      fun x hx => hstop x (List.mem_cons_of_mem e hx)
    rw [videoRun, hstope]
    simp only [Bool.false_eq_true, if_false, eq_self_iff_true, true_or,
      if_true]
    cases e with
    | wouldBlock stop =>
      rw [videoStep_wouldBlock]
      exact ih s hstopes hseed (by rwa [frameSeqs] at hchain)
    | frame stop i q r ob =>
      obtain ⟨hgap, hseen2, hlast2⟩ :=
        videoStep_frame_seed s stop i q r ob hseed
      rw [frameSeqs] at hchain ⊢
      rw [gapSumList]
      have hch : List.Chain (· < ·) (q % U32) (frameSeqs es) := hchain
      rw [videoRun0_gapDrops_of_seen es _ hstopes hseen2
        (by rw [hlast2]; exact hch), hgap, hlast2]

/-- A contiguous observation chain contributes no gaps to the spec formula. -/
theorem gapFrom_contig (last : Nat) (l : List Nat)
    (h : List.Chain (fun a b => b = a + 1) last l) : gapFrom last l = 0 := by
  induction l generalizing last with
  | nil => rfl
  | cons c rest ih =>
    obtain ⟨hc, hrest⟩ := List.chain_cons.mp h
    rw [gapFrom, if_neg (by omega), ih c hrest]

/-- A negative frame target (the `int` cast of a large 32-bit product) makes
the running loop exit before processing anything. -/
theorem videoRun_neg_target (tgt : Int) (htgt : tgt < 0)
    (events : List VideoEvent) (s : VideoState) :
    videoRun tgt s events = s := by
  cases events with
  | nil => rfl
  | cons e es =>
    rw [videoRun]
    by_cases hstop : e.stopFlag = true
    · rw [if_pos hstop]
    · rw [if_neg hstop, if_neg]
      rintro (h | h)
      · omega
      · have : (0 : Int) ≤ (s.frames : Int) := Int.natCast_nonneg _
        omega

/-- With a positive frame target `p`, the running loop never takes the frame
counter past `p`. -/
theorem videoRun_frames_le (p : Nat) (events : List VideoEvent)
    (s : VideoState) (hp : 0 < p) (hs : s.frames ≤ p) :
    (videoRun (p : Int) s events).frames ≤ p := by
  induction events generalizing s with
  | nil => exact hs
  | cons e es ih =>
    rw [videoRun]
    by_cases hstop : e.stopFlag = true
    · rwa [if_pos hstop]
    · rw [if_neg hstop]
      by_cases hc : (s.frames : Int) < (p : Int)
      · rw [if_pos (Or.inr hc)]
        have hlt : s.frames < p := by exact_mod_cast hc
        exact ih (videoStep s e)
          (Nat.le_trans (videoStep_frames_le s e) hlt)
      · rw [if_neg]
        · exact hs
        · rintro (h | h)
          · have : p ≠ 0 := Nat.pos_iff_ne_zero.mp hp
            exact this (by exact_mod_cast h)
          · exact hc h

/-! ## The claims -/

/-- Claim C1: over any capture trace processed by the video worker in the
unlimited-target configuration with no stop delivered, where the observed
32-bit sequence numbers are strictly increasing (the capture contract), the
dropped-unit count reported from sequence gaps equals the sum over all gaps
of `cur − last − 1`; it is zero when the observed numbers are contiguous,
and the first dequeued buffer only seeds the last-seen value (a singleton or
empty observation list yields zero). -/
theorem claim_C1 (events : List VideoEvent)
    (hstop : ∀ e ∈ events, e.stopFlag = false)
    (hmono : (frameSeqs events).Chain' (· < ·)) :
    (videoRun 0 initVideoState events).gapDrops = gapSumList (frameSeqs events)
      ∧ ((frameSeqs events).Chain' (fun a b => b = a + 1) →
          (videoRun 0 initVideoState events).gapDrops = 0) := by
  have hmain := videoRun0_gapDrops events initVideoState hstop rfl hmono
  rw [show initVideoState.gapDrops = 0 from rfl, Nat.zero_add] at hmain
  refine ⟨hmain, fun hcontig => ?_⟩
  have hzero : gapSumList (frameSeqs events) = 0 := by
    cases hfs : frameSeqs events with
    | nil => rfl
    | cons c rest =>
      rw [gapSumList]
      rw [hfs] at hcontig
      exact gapFrom_contig c rest hcontig
  rw [hmain, hzero]

/-- Claim C1 witness: sequence numbers 10, 11, 14 (scenario C) yield exactly
2 gap drops, and the contiguity implication is discharged vacuously. -/
theorem claim_C1_witness :
    ((videoRun 0 initVideoState
        [.frame false 0 10 0 0, .frame false 1 11 0 0, .frame false 2 14 0 0]
          ).gapDrops
        = gapSumList (frameSeqs
            [.frame false 0 10 0 0, .frame false 1 11 0 0,
              .frame false 2 14 0 0])
      ∧ ((frameSeqs
            [.frame false 0 10 0 0, .frame false 1 11 0 0,
              .frame false 2 14 0 0]).Chain' (fun a b => b = a + 1) →
          (videoRun 0 initVideoState
            [.frame false 0 10 0 0, .frame false 1 11 0 0,
              .frame false 2 14 0 0]).gapDrops = 0)) :=
  claim_C1
    [.frame false 0 10 0 0, .frame false 1 11 0 0, .frame false 2 14 0 0]
    (by decide)
    (by
      rw [show frameSeqs
          [.frame false 0 10 0 0, .frame false 1 11 0 0,
            .frame false 2 14 0 0] = [10, 11, 14] by decide]
      norm_num [List.chain'_cons, List.chain'_singleton])

/-- Claim C3: with a non-zero configured duration and positive fps whose
product does not wrap to zero in the 32-bit target computation, the video
worker processes at most `duration_sec × fps` frames — each successfully
dequeued buffer counts once — whatever capture trace it observes, with or
without a stop. -/
theorem claim_C3 (duration_sec fps : Nat) (events : List VideoEvent)
    (hd : 0 < duration_sec) (hf : 0 < fps)
    (hw : duration_sec * fps % U32 ≠ 0) :
    (videoRun (frames_target duration_sec fps) initVideoState events).frames
      ≤ duration_sec * fps := by
  rw [frames_target, if_pos ⟨hd, hf⟩]
  simp only
  by_cases hI : duration_sec * fps % U32 < I32
  · rw [if_pos hI]
    have hle : (videoRun ((duration_sec * fps % U32 : Nat) : Int)
        initVideoState events).frames ≤ duration_sec * fps % U32 :=
      videoRun_frames_le _ events initVideoState
        (Nat.pos_iff_ne_zero.mpr hw) (Nat.zero_le _)
    exact Nat.le_trans hle (Nat.mod_le _ _)
  · rw [if_neg hI]
    have hmod : duration_sec * fps % U32 < U32 :=
      Nat.mod_lt _ (by decide)
    have hneg : ((duration_sec * fps % U32 : Nat) : Int) - (U32 : Int) < 0 := by
      have : ((duration_sec * fps % U32 : Nat) : Int) < (U32 : Int) := by
        exact_mod_cast hmod
      omega
    rw [videoRun_neg_target _ hneg events initVideoState]
    exact Nat.zero_le _

/-- Claim C3 witness: duration 2 s at 3 fps bounds a 10-event all-frame
trace at 6 processed frames. -/
theorem claim_C3_witness :
    (0 : Nat) < 2 ∧ (0 : Nat) < 3 ∧ 2 * 3 % U32 ≠ 0 ∧
      (videoRun (frames_target 2 3) initVideoState
          (List.replicate 10 (.frame false 0 0 0 0))).frames ≤ 2 * 3 :=
  ⟨by decide, by decide, by decide,
    claim_C3 2 3 (List.replicate 10 (.frame false 0 0 0 0))
      (by decide) (by decide) (by decide)⟩

/-- Claim C7: starting from balanced books, after any run every successfully
dequeued buffer index has been re-enqueued exactly once and in order
(`enqueued = dequeued` as lists); one successful-dequeue iteration appends
its index exactly once to each list regardless of the encode result, and a
WouldBlock iteration touches nothing. -/
theorem claim_C7 (tgt : Int) (events : List VideoEvent) :
    ((videoRun tgt initVideoState events).enqueued
        = (videoRun tgt initVideoState events).dequeued)
      ∧ (∀ (s : VideoState) (stop : Bool) (i q : Nat) (r : Int) (ob : Nat),
          (videoStep s (.frame stop i q r ob)).dequeued = s.dequeued ++ [i]
            ∧ (videoStep s (.frame stop i q r ob)).enqueued
                = s.enqueued ++ [i])
      ∧ (∀ (s : VideoState) (stop : Bool),
          videoStep s (.wouldBlock stop) = s) := by
  have hstep : ∀ (s : VideoState) (stop : Bool) (i q : Nat) (r : Int)
      (ob : Nat),
      (videoStep s (.frame stop i q r ob)).dequeued = s.dequeued ++ [i]
        ∧ (videoStep s (.frame stop i q r ob)).enqueued = s.enqueued ++ [i] := by
    intro s stop i q r ob
    constructor <;> (by_cases hs : s.has_seq = true <;>
      by_cases hr : r = 0 <;> simp [videoStep, hs, hr])
  refine ⟨?_, hstep, fun s stop => rfl⟩
  have hrun : ∀ (evs : List VideoEvent) (s : VideoState),
      s.enqueued = s.dequeued →
      (videoRun tgt s evs).enqueued = (videoRun tgt s evs).dequeued := by
    intro evs
    induction evs with
    | nil => exact fun s h => h
    | cons e es ih =>
      intro s h
      rw [videoRun]
      by_cases hstop : e.stopFlag = true
      · rwa [if_pos hstop]
      · rw [if_neg hstop]
        by_cases hc : tgt = 0 ∨ (s.frames : Int) < tgt
        · rw [if_pos hc]
          refine ih (videoStep s e) ?_
          cases e with
          | wouldBlock stop => rwa [videoStep_wouldBlock]
          | frame stop i q r ob =>
            obtain ⟨hd, he⟩ := hstep s stop i q r ob
            rw [hd, he, h]
        · rwa [if_neg hc]
  exact hrun events initVideoState rfl

/-- Claim C10: the per-run frame counter increments by exactly one for every
successfully dequeued buffer regardless of the encode result; an iteration
whose encode fails records one dropped unit and advances neither the
encoded-frame counter nor the encoded-byte counter, while a successful
encode advances the encoded-frame counter without touching the drop
counter. -/
theorem claim_C10 (s : VideoState) (stop : Bool) (index seq : Nat)
    (encRet : Int) (encOutBytes : Nat) :
    (videoStep s (.frame stop index seq encRet encOutBytes)).frames
        = s.frames + 1
      ∧ (encRet ≠ 0 →
          (videoStep s (.frame stop index seq encRet encOutBytes)).encFailDrops
              = s.encFailDrops + 1
            ∧ (videoStep s (.frame stop index seq encRet encOutBytes)).videoFrames
                = s.videoFrames
            ∧ (videoStep s (.frame stop index seq encRet encOutBytes)).encBytes
                = s.encBytes)
      ∧ (encRet = 0 →
          (videoStep s (.frame stop index seq encRet encOutBytes)).videoFrames
              = s.videoFrames + 1
            ∧ (videoStep s (.frame stop index seq encRet encOutBytes)).encFailDrops
                = s.encFailDrops) := by
  by_cases hs : s.has_seq = true <;> by_cases hr : encRet = 0 <;>
    simp [videoStep, hs, hr]

/-- Claim C10 witness: a failing encode (`encRet = -1`) still advances the
frame budget and records one drop at the concrete start state. -/
theorem claim_C10_witness :
    (videoStep initVideoState (.frame false 0 5 (-1) 0)).frames = 1
      ∧ (videoStep initVideoState (.frame false 0 5 (-1) 0)).encFailDrops
          = 1 :=
  ⟨(claim_C10 initVideoState false 0 5 (-1) 0).1,
    ((claim_C10 initVideoState false 0 5 (-1) 0).2.1 (by decide)).1⟩

/-- Claim C2, counterexample to the claim as stated: with duration 1 s,
sample rate 2 and 2 bytes per frame the byte limit is 4; with 3 frames per
period the chunk size is 6; a single successful chunk read and write (which
begins while `written = 0 < 4`) leaves 6 bytes in the output file — more
than `duration_sec × sample_rate × bytes_per_frame`. -/
theorem claim_C2_cex :
    chunk_bytes 3 2 = 6 ∧ total_bytes 1 2 2 = 4 ∧
      total_bytes 1 2 2 <
        (audioRun (total_bytes 1 2 2) initAudioState
          [⟨false, 6, 6⟩]).fileBytes := by
  decide

/-- Claim C2 (amended): for every configured non-zero duration with a
positive byte limit, and absent an external stop, the audio worker persists
strictly fewer than `duration_sec × sample_rate × bytes_per_frame + chunk`
bytes to its output — the loop condition compares the bytes counted so far
against the product before each chunk read, so the total can overshoot the
product by at most one chunk minus one byte. -/
theorem claim_C2
    (duration_sec sample_rate bytes_per_frame frames_per_period : Nat)
    (events : List AudioEvent)
    (htot : 0 < total_bytes duration_sec sample_rate bytes_per_frame)
    (hev : ∀ e ∈ events,
      e.n ≤ (chunk_bytes frames_per_period bytes_per_frame : Int)
        ∧ e.wn ≤ e.n.toNat) :
    (audioRun (total_bytes duration_sec sample_rate bytes_per_frame)
        initAudioState events).fileBytes
      < total_bytes duration_sec sample_rate bytes_per_frame
        + chunk_bytes frames_per_period bytes_per_frame :=
  audioRun_fileBytes_lt _ _ events initAudioState hev rfl
    (by simp only [initAudioState]; omega)

/-- Claim C2 witness: duration 1 s, rate 4, 1 byte per frame (limit 4),
2 frames per period (chunk 2); two full chunk writes stay below 4 + 2. -/
theorem claim_C2_witness :
    0 < total_bytes 1 4 1 ∧
      (audioRun (total_bytes 1 4 1) initAudioState
          [⟨false, 2, 2⟩, ⟨false, 2, 2⟩]).fileBytes
        < total_bytes 1 4 1 + chunk_bytes 2 1 :=
  ⟨by decide,
    claim_C2 1 4 1 2 [⟨false, 2, 2⟩, ⟨false, 2, 2⟩] (by decide) (by decide)⟩

/-- Claim C4, counterexample to the claim as stated: on an open file sink, a
write call requesting zero bytes is rejected by the argument guard
(sink.c:53) and returns an error, even though all (zero) requested bytes
were written — so "the call succeeds if and only if all requested bytes are
written" fails at a zero-length request. -/
theorem claim_C4_cex :
    ¬((enc_sink_write ⟨.ENC_SINK_FILE, "out.h264", true, false⟩ true 0 0 = 0)
        ↔ (0 : Nat) = 0) := by
  decide

/-- Claim C4 (amended): on an open file sink, a write call with non-null
data and a positive requested length succeeds if and only if the underlying
`fwrite` persisted exactly the requested bytes, and any short write returns
an error; a call with null data or zero requested length fails
unconditionally.  Moreover, when the sink write inside an encode call fails,
the encode call returns an error and its `out_bytes` output stays zero, so
no partial-success counter update occurs in the video loop. -/
theorem claim_C4 :
    (∀ (sink : EncSink) (len ioWritten : Nat),
      sink.type = .ENC_SINK_FILE → sink.file_fp = true → 0 < len →
        ((enc_sink_write sink true len ioWritten = 0 ↔ ioWritten = len)
          ∧ (ioWritten ≠ len → enc_sink_write sink true len ioWritten = -1)))
    ∧ (∀ (enc : EncoderMPP) (data : List Nat) (sink : EncSink)
        (o : MppOracle) (p : MppPacket),
      enc.valid = true → data ≠ [] →
      o.frameInitRet = 0 → o.putFrameRet = 0 → o.getPacketRet = 0 →
      o.pkt = some p → p.posNull = false → 0 < p.len →
      enc_sink_write sink true p.len o.sinkIoWritten ≠ 0 →
        (encoder_mpp_encode enc (some data) true sink o).ret = -1
          ∧ (encoder_mpp_encode enc (some data) true sink o).out_bytes = 0) := by
  constructor
  · intro sink len ioWritten hty hfp hlen
    obtain ⟨t, tg, ff, pf⟩ := sink
    simp only at hty hfp
    subst hty hfp
    constructor
    · by_cases h : ioWritten = len
      · simp [enc_sink_write, h, Nat.pos_iff_ne_zero.mp hlen]
      · simp [enc_sink_write, h, Nat.pos_iff_ne_zero.mp hlen]
    · intro h
      simp [enc_sink_write, h, Nat.pos_iff_ne_zero.mp hlen]
  · intro enc data sink o p hv hdata hfi hpf hgp hpkt hpos hplen hsr
    have hlen : data.length ≠ 0 := by
      simpa using List.length_pos.mpr hdata |>.ne'
    rw [encoder_mpp_encode]
    simp only [hv, not_true_eq_false, if_false, hlen, hfi, hpf, hgp, hpkt,
      hpos, ite_false]
    simp only [not_false_eq_true, hplen, and_true, true_and, if_true,
      ite_not]
    constructor <;> simp [hsr]

/-- Claim C4 witness: an open file sink, a 5-byte request of which only 3
bytes are persisted: the write errors, and an encode call whose packet write
fails this way returns an error with `out_bytes = 0`. -/
theorem claim_C4_witness :
    ((0 : Nat) < 5
      ∧ ((enc_sink_write ⟨.ENC_SINK_FILE, "out.h264", true, false⟩ true 5 3 = 0
            ↔ (3 : Nat) = 5)
        ∧ ((3 : Nat) ≠ 5 →
            enc_sink_write ⟨.ENC_SINK_FILE, "out.h264", true, false⟩ true 5 3
              = -1)))
    ∧ ((encoder_mpp_encode ⟨true, 8, List.replicate 8 0⟩ (some [1])
          true ⟨.ENC_SINK_FILE, "out.h264", true, false⟩
          ⟨0, 0, 0, some ⟨false, 5⟩, 3⟩).ret = -1
        ∧ (encoder_mpp_encode ⟨true, 8, List.replicate 8 0⟩ (some [1])
            true ⟨.ENC_SINK_FILE, "out.h264", true, false⟩
            ⟨0, 0, 0, some ⟨false, 5⟩, 3⟩).out_bytes = 0) :=
  ⟨⟨by decide,
    claim_C4.1 ⟨.ENC_SINK_FILE, "out.h264", true, false⟩ 5 3 rfl rfl
      (by decide)⟩,
    claim_C4.2 ⟨true, 8, List.replicate 8 0⟩ [1]
      ⟨.ENC_SINK_FILE, "out.h264", true, false⟩ ⟨0, 0, 0, some ⟨false, 5⟩, 3⟩
      ⟨false, 5⟩ rfl (by decide) rfl rfl rfl rfl rfl (by decide) (by decide)⟩

/-- Claim C5: in the orchestrator's shutdown tail the audio join strictly
precedes the single forced stop-flag write, which strictly precedes the
video join — so audio completion (for any reason) forces the stop signal
before the orchestrator waits on the video worker, and no stop write is
placed between a video join and a later audio join (the reverse trigger does
not exist). -/
theorem claim_C5 :
    ∀ durationPos : Bool,
      (mainShutdown durationPos).indexOf .joinAudio = 0
        ∧ (mainShutdown durationPos).indexOf .joinAudio
            < (mainShutdown durationPos).indexOf .setStop
        ∧ (mainShutdown durationPos).indexOf .setStop
            < (mainShutdown durationPos).indexOf .joinVideo
        ∧ (mainShutdown durationPos).count .setStop = 1 := by
  intro d
  cases d <;> decide

/-- Claim C6: the stop signal starts unset, every `g_stop = 1` site in the
program stores 1 regardless of the previous value, no action of any thread
ever stores 0 (each action either sets the flag or leaves it unchanged), and
once any prefix of the process's actions has set the flag, every extension
still observes it set. -/
theorem claim_C6 :
    stopTrace [] = false
      ∧ (∀ (g : Bool) (a : StopAction), a.writes = true → stopAfter g a = true)
      ∧ (∀ (g : Bool) (a : StopAction),
          stopAfter g a = true ∨ stopAfter g a = g)
      ∧ (∀ pre post : List StopAction,
          stopTrace pre = true → stopTrace (pre ++ post) = true) := by
  refine ⟨rfl, ?_, ?_, ?_⟩
  · intro g a h
    simp [stopAfter, h]
  · intro g a
    by_cases h : a.writes <;> simp [stopAfter, h]
  · intro pre post h
    rw [stopTrace, List.foldl_append]
    rw [stopTrace] at h
    rw [h]
    exact foldl_stopAfter_true post

/-- Claim C6 witness: after a signal-handler write, further polling by the
workers still observes the flag set. -/
theorem claim_C6_witness :
    stopTrace ([.sigintHandler] ++ [.videoPoll, .audioPoll, .statsPoll])
      = true :=
  claim_C6.2.2.2 [.sigintHandler] [.videoPoll, .audioPoll, .statsPoll]
    (by decide)

/-- Claim C9, counterexample to the claim as stated: the `ENC_SINK_NONE`
variant is not the implemented file variant, yet `enc_sink_open` merely logs
a warning and returns success for it (sink.c:42-45). -/
theorem claim_C9_cex :
    (enc_sink_open ⟨.ENC_SINK_NONE, "rtmp target", false, false⟩ true).1
      = 0 := by
  decide

/-- Claim C9 (amended): opening the unimplemented `ENC_SINK_PIPE_FFMPEG`
transport variant fails deterministically with an error for every target
string and every environment, and does not crash; the `ENC_SINK_NONE`
variant's open, by contrast, succeeds as a no-op. -/
theorem claim_C9 (sink : EncSink) (fopenOk : Bool)
    (h : sink.type = .ENC_SINK_PIPE_FFMPEG) :
    (enc_sink_open sink fopenOk).1 = -1 := by
  obtain ⟨t, tg, ff, pf⟩ := sink
  simp only at h
  subst h
  rfl

/-- Claim C9 witness: opening a pipe-variant sink with an arbitrary target
fails. -/
theorem claim_C9_witness :
    (⟨.ENC_SINK_PIPE_FFMPEG, "rtmp target", false, false⟩ : EncSink).type
        = .ENC_SINK_PIPE_FFMPEG
      ∧ (enc_sink_open ⟨.ENC_SINK_PIPE_FFMPEG, "rtmp target", false, false⟩
          true).1 = -1 :=
  ⟨rfl,
    claim_C9 ⟨.ENC_SINK_PIPE_FFMPEG, "rtmp target", false, false⟩ true rfl⟩

/-- Claim C8: for every encode call with a non-null, non-empty raw payload,
the stage copies the payload into its own scratch buffer (of capacity
`stride-aligned width × height × 3/2` as computed at init) before
submitting: a payload at least as large as the capacity contributes exactly
its first `capacity` bytes, a smaller payload is zero-extended to the full
capacity, and in either case nothing of the previous scratch contents
survives (the result does not depend on the old contents at all). -/
theorem claim_C8 (width height : Nat) (enc : EncoderMPP) (data : List Nat)
    (sinkPresent : Bool) (sink : EncSink) (o : MppOracle)
    (hv : enc.valid = true)
    (hcap : enc.frame_size = encFrameSize width height)
    (hold : enc.scratch.length = enc.frame_size)
    (hne : data ≠ []) :
    (encoder_mpp_encode enc (some data) sinkPresent sink o).scratch
        = data.take (min data.length (encFrameSize width height))
          ++ List.replicate (encFrameSize width height - data.length) 0
      ∧ (encFrameSize width height ≤ data.length →
          (encoder_mpp_encode enc (some data) sinkPresent sink o).scratch
            = data.take (encFrameSize width height))
      ∧ (data.length < encFrameSize width height →
          (encoder_mpp_encode enc (some data) sinkPresent sink o).scratch
            = data ++ List.replicate
                (encFrameSize width height - data.length) 0) := by
  have hlen : data.length ≠ 0 := by
    simpa using (List.length_pos.mpr hne).ne'
  have hmain :
      (encoder_mpp_encode enc (some data) sinkPresent sink o).scratch
        = data.take (min data.length (encFrameSize width height))
          ++ List.replicate (encFrameSize width height - data.length) 0 := by
    rw [encoder_mpp_encode_scratch enc data sinkPresent sink o hv hlen, hcap]
    exact scratchAfterEncode_eq _ _ _ (hcap ▸ hold)
  refine ⟨hmain, ?_, ?_⟩
  · intro hge
    rw [hmain, Nat.min_eq_right hge, Nat.sub_eq_zero_of_le hge]
    simp
  · intro hlt
    rw [hmain, Nat.min_eq_left (Nat.le_of_lt hlt), List.take_length]

/-- Claim C8 witness: a 1×1 session (scratch capacity 384) whose scratch
holds stale bytes; encoding a 3-byte payload leaves the payload followed by
381 zeroes. -/
theorem claim_C8_witness :
    (List.replicate 384 7).length = (384 : Nat)
      ∧ ((encoder_mpp_encode ⟨true, 384, List.replicate 384 7⟩
            (some [1, 2, 3]) true
            ⟨.ENC_SINK_FILE, "out.h264", true, false⟩
            ⟨0, 0, 0, none, 0⟩).scratch
          = [1, 2, 3].take (min 3 (encFrameSize 1 1))
            ++ List.replicate (encFrameSize 1 1 - 3) 0
        ∧ (encFrameSize 1 1 ≤ 3 →
            (encoder_mpp_encode ⟨true, 384, List.replicate 384 7⟩
              (some [1, 2, 3]) true
              ⟨.ENC_SINK_FILE, "out.h264", true, false⟩
              ⟨0, 0, 0, none, 0⟩).scratch = [1, 2, 3].take (encFrameSize 1 1))
        ∧ (3 < encFrameSize 1 1 →
            (encoder_mpp_encode ⟨true, 384, List.replicate 384 7⟩
              (some [1, 2, 3]) true
              ⟨.ENC_SINK_FILE, "out.h264", true, false⟩
              ⟨0, 0, 0, none, 0⟩).scratch
              = [1, 2, 3] ++ List.replicate (encFrameSize 1 1 - 3) 0)) :=
  ⟨by decide,
    by
      have h := claim_C8 1 1 ⟨true, 384, List.replicate 384 7⟩ [1, 2, 3]
        true ⟨.ENC_SINK_FILE, "out.h264", true, false⟩ ⟨0, 0, 0, none, 0⟩
        rfl (by decide) (by decide) (by decide)
      simpa using h⟩

end AvRepro
